import Mathlib

/-!
Verification of the pre-shift-check PWA sync core.

This file gives a shallow embedding of the parts of the program that the
verified properties talk about:

* the server's in-memory upsert store (`src/server` — routes
  `POST /api/events`, `POST /api/events/batch`, `POST /api/faults/batch`,
  `GET /api/events/last-failed/:asset_id`), modelled over an
  insertion-ordered association list mirroring a JS `Map`;
* the client's local database operations (`database.service.ts`):
  pending-record queries, per-record sync-status updates, asset bulk put;
* the client's sync engine (`sync.service.ts`): `syncEvents` / `syncFaults`
  batch-result handling, `retryEvent` / `retryFault`, and the control flow
  of `initialSync` / `syncQueue` with each awaited operation modelled as a
  fallible oracle;
* an interleaving model of two concurrent `syncQueue` invocations, with one
  atomic step per synchronous block between `await` suspension points.

Timestamps (ISO strings compared via `Date.getTime()` in the source) are
modelled as integers.  Fields that may be absent from a JSON payload are
`Option`-valued.  JS object spread `{...event, f: x}` is modelled as a
structure update.
-/

namespace PSC

/-- Client-side sync status of a locally stored record. -/
inductive SyncStatus
  | PENDING
  | SYNCED
  | ERROR
deriving DecidableEq, Repr

/-- Outcome of a pre-shift check. -/
inductive CheckResult
  | PASS
  | FAIL
deriving DecidableEq, Repr

/-- Answer to a single checklist item; `noAnswer` models the `null` state of
an unanswered form item. -/
inductive Answer
  | YES
  | NO
  | noAnswer
deriving DecidableEq, Repr

/-- Status of a fault record. -/
inductive FaultStatus
  | OPEN
  | CLOSED
deriving DecidableEq, Repr

/-! ## JS `Map` model

The server keeps its stores in `Map` objects.  A JS `Map` preserves insertion
order; `set` on an existing key replaces the value in place, on a new key it
appends.  We model this with an association list. -/

/-- `Map.get`: first (unique) entry with the given key. -/
def mapGet (m : List (String × α)) (k : String) : Option α :=
  match m with
  | [] => none
  | (k', v) :: rest => if k' = k then some v else mapGet rest k

/-- `Map.set`: replace in place if the key is present, else append. -/
def mapSet (m : List (String × α)) (k : String) (v : α) : List (String × α) :=
  match m with
  | [] => [(k, v)]
  | (k', v') :: rest => if k' = k then (k, v) :: rest else (k', v') :: mapSet rest k v

/-! ## Server data model (`src/server`, `part_001`) -/

/-- A pre-shift-check event as the server stores it.  `created_at` and
`updated_at` are `Option` because a raw request payload may lack them;
the server's create branch fills both in. -/
structure EventRec where
  event_id : String
  asset_id : String
  completed_at : Int
  result : CheckResult
  created_at : Option Int
  updated_at : Option Int
deriving DecidableEq, Repr

/-- A fault as the server stores it. -/
structure FaultRec where
  fault_id : String
  asset_id : String
  status : FaultStatus
  created_at : Option Int
  updated_at : Option Int
deriving DecidableEq, Repr

/-- Reported action of the single-upsert route. -/
inductive UpsertAction
  | created
  | updated
  | badRequest
deriving DecidableEq, Repr

/-- `POST /api/events` (`part_001` lines 117–137).  `!event.event_id` is the
JS falsiness test: a missing or empty id; we model it as `event_id = ""`.
The update branch stores `{ ...event, updated_at: now }` — i.e. every field
of the incoming payload, only `updated_at` overridden. -/
def upsertEvent (db : List (String × EventRec)) (event : EventRec) (now : Int) :
    UpsertAction × List (String × EventRec) :=
  if event.event_id = "" then
    (UpsertAction.badRequest, db)
  else
    match mapGet db event.event_id with
    | some _ =>
        (UpsertAction.updated,
          mapSet db event.event_id { event with updated_at := some now })
    | none =>
        (UpsertAction.created,
          mapSet db event.event_id { event with created_at := some now, updated_at := some now })

/-- One entry of `BatchResponse.errors`. -/
structure BatchError where
  id : String
  error : String
deriving DecidableEq, Repr

/-- The server's batch-upsert response body. -/
structure BatchResponse where
  processed : Nat
  created : Nat
  updated : Nat
  errors : List BatchError
deriving DecidableEq, Repr

/-- One iteration of the `POST /api/events/batch` loop
(`part_001` lines 152–174). -/
def eventBatchStep (now : Int) (acc : BatchResponse × List (String × EventRec))
    (event : EventRec) : BatchResponse × List (String × EventRec) :=
  let (resp, db) := acc
  if event.event_id = "" then
    ({ resp with errors := resp.errors ++ [⟨"unknown", "event_id is required"⟩] }, db)
  else
    match mapGet db event.event_id with
    | some _ =>
        ({ resp with updated := resp.updated + 1 },
          mapSet db event.event_id { event with updated_at := some now })
    | none =>
        ({ resp with created := resp.created + 1 },
          mapSet db event.event_id { event with created_at := some now, updated_at := some now })

/-- `POST /api/events/batch` (`part_001` lines 139–176): `processed` is set
to the request length up front, then each record is handled independently in
a loop. -/
def batchUpsertEvents (db : List (String × EventRec)) (events : List EventRec) (now : Int) :
    BatchResponse × List (String × EventRec) :=
  events.foldl (eventBatchStep now) (⟨events.length, 0, 0, []⟩, db)

/-- One iteration of the `POST /api/faults/batch` loop
(`part_001` lines 241–263). -/
def faultBatchStep (now : Int) (acc : BatchResponse × List (String × FaultRec))
    (fault : FaultRec) : BatchResponse × List (String × FaultRec) :=
  let (resp, db) := acc
  if fault.fault_id = "" then
    ({ resp with errors := resp.errors ++ [⟨"unknown", "fault_id is required"⟩] }, db)
  else
    match mapGet db fault.fault_id with
    | some _ =>
        ({ resp with updated := resp.updated + 1 },
          mapSet db fault.fault_id { fault with updated_at := some now })
    | none =>
        ({ resp with created := resp.created + 1 },
          mapSet db fault.fault_id { fault with created_at := some now, updated_at := some now })

/-- `POST /api/faults/batch` (`part_001` lines 228–265). -/
def batchUpsertFaults (db : List (String × FaultRec)) (faults : List FaultRec) (now : Int) :
    BatchResponse × List (String × FaultRec) :=
  faults.foldl (faultBatchStep now) (⟨faults.length, 0, 0, []⟩, db)

/-- `Array.from(db.events.values())`: the stored events in insertion order. -/
def eventsValues (db : List (String × EventRec)) : List EventRec :=
  db.map Prod.snd

/-- The comparator `(a, b) => new Date(b.completed_at) - new Date(a.completed_at)`:
descending order of `completed_at`. -/
def byCompletedDesc (a b : EventRec) : Prop :=
  b.completed_at ≤ a.completed_at

instance : DecidableRel byCompletedDesc := fun a b =>
  inferInstanceAs (Decidable (b.completed_at ≤ a.completed_at))

instance : IsTotal EventRec byCompletedDesc :=
  ⟨fun a b => Int.le_total b.completed_at a.completed_at⟩

instance : IsTrans EventRec byCompletedDesc :=
  ⟨fun _ _ _ h1 h2 => le_trans h2 h1⟩

/-- `GET /api/events/last-failed/:asset_id` (`part_001` lines 87–106):
filter the asset's events, sort by `completed_at` descending, inspect only
the most recent one.  (The client mirror
`DatabaseService.getLastUnresolvedFailedCheck` implements the same
algorithm over the local store.) -/
def lastFailedForAsset (db : List (String × EventRec)) (assetId : String) :
    Option EventRec :=
  let assetEvents :=
    ((eventsValues db).filter (fun e => e.asset_id == assetId)).insertionSort byCompletedDesc
  match assetEvents with
  | [] => none
  | lastEvent :: _ =>
      if lastEvent.result = CheckResult.PASS then none else some lastEvent

/-! ## Pure client helpers (`utils.service.ts`, `pre-shift-check.component.ts`) -/

/-- `UtilsService.calculateCheckResult` (`utils.service.ts` lines 184–186):
`responses.every(r => r.answer === 'YES') ? 'PASS' : 'FAIL'`. -/
def calculateCheckResult (responses : List Answer) : CheckResult :=
  if responses.all (fun r => r == Answer.YES) then CheckResult.PASS else CheckResult.FAIL

/-- `willPass` computed signal (`pre-shift-check.component.ts` lines 117–119):
`formItems().every(item => item.answer === 'YES')`. -/
def willPass (items : List Answer) : Bool :=
  items.all (fun r => r == Answer.YES)

/-! ## Client local store (`database.service.ts`) -/

/-- A pre-shift-check event as the client stores it, including the
client-only fields `sync_status` and `last_error`. -/
structure CEvent where
  event_id : String
  asset_id : String
  completed_at : Int
  result : CheckResult
  created_at : Int
  updated_at : Int
  sync_status : SyncStatus
  last_error : Option String
deriving DecidableEq, Repr

/-- A fault as the client stores it. -/
structure CFault where
  fault_id : String
  asset_id : String
  status : FaultStatus
  updated_at : Int
  sync_status : SyncStatus
  last_error : Option String
deriving DecidableEq, Repr

/-- `DatabaseService.getPendingEvents` (lines 152–154):
`events.where('sync_status').anyOf(['PENDING', 'ERROR'])`. -/
def getPendingEvents (events : List CEvent) : List CEvent :=
  events.filter (fun e =>
    e.sync_status == SyncStatus.PENDING || e.sync_status == SyncStatus.ERROR)

/-- `DatabaseService.getPendingFaults` (lines 204–206). -/
def getPendingFaults (faults : List CFault) : List CFault :=
  faults.filter (fun f =>
    f.sync_status == SyncStatus.PENDING || f.sync_status == SyncStatus.ERROR)

/-- `DatabaseService.updateEventSyncStatus` (lines 171–178): Dexie
`Table.update(key, changes)` — modify the record with that primary key,
no-op if absent.  Sets `sync_status`, `last_error` and `updated_at = now`. -/
def updateEventSyncStatus (events : List CEvent) (eventId : String)
    (status : SyncStatus) (err : Option String) (now : Int) : List CEvent :=
  events.map fun e =>
    if e.event_id = eventId then
      { e with sync_status := status, last_error := err, updated_at := now }
    else e

/-- `DatabaseService.updateFaultSyncStatus` (lines 222–229). -/
def updateFaultSyncStatus (faults : List CFault) (faultId : String)
    (status : SyncStatus) (err : Option String) (now : Int) : List CFault :=
  faults.map fun f =>
    if f.fault_id = faultId then
      { f with sync_status := status, last_error := err, updated_at := now }
    else f

/-- An asset record (`models/types`). -/
structure AssetRec where
  asset_id : String
  name : String
  machine_class : String
  qr_code_value : String
deriving DecidableEq, Repr

/-- `DatabaseService.saveAssets` (lines 81–83): `assets.bulkPut(assets)` —
put each server asset by its primary key into the local assets table.
There is no preceding `clear`. -/
def saveAssets (store : List (String × AssetRec)) (assets : List AssetRec) :
    List (String × AssetRec) :=
  assets.foldl (fun s a => mapSet s a.asset_id a) store

/-! ## Sync engine record handling (`sync.service.ts`) -/

/-- The projection applied before transmission (`sync.service.ts`
lines 329–332): strip the client-only fields. -/
def toServerEvent (e : CEvent) : EventRec :=
  ⟨e.event_id, e.asset_id, e.completed_at, e.result, some e.created_at, some e.updated_at⟩

/-- `SyncService.syncEvents` (lines 327–363).  `apiResult` is the outcome of
the awaited `api.batchUpsertEvents` call: `.ok` a `BatchResponse`, `.error`
a thrown transport exception's message.  Returns the updated local events
table and the call's own outcome (the catch branch re-throws after marking
every batch record `ERROR`). -/
def syncEvents (pending : List CEvent) (apiResult : Except String BatchResponse)
    (db : List CEvent) (now : Int) : List CEvent × Except String Unit :=
  match apiResult with
  | Except.ok result =>
      let successIds :=
        (pending.filter (fun e =>
          (result.errors.find? (fun err => err.id == e.event_id)).isNone)).map
          (fun e => e.event_id)
      let db1 := successIds.foldl
        (fun d i => updateEventSyncStatus d i SyncStatus.SYNCED none now) db
      let db2 := result.errors.foldl
        (fun d err => updateEventSyncStatus d err.id SyncStatus.ERROR (some err.error) now) db1
      (db2, Except.ok ())
  | Except.error msg =>
      (pending.foldl
        (fun d e => updateEventSyncStatus d e.event_id SyncStatus.ERROR (some msg) now) db,
       Except.error msg)

/-- `SyncService.syncFaults` (lines 365–401), same shape as `syncEvents`. -/
def syncFaults (pending : List CFault) (apiResult : Except String BatchResponse)
    (db : List CFault) (now : Int) : List CFault × Except String Unit :=
  match apiResult with
  | Except.ok result =>
      let successIds :=
        (pending.filter (fun f =>
          (result.errors.find? (fun err => err.id == f.fault_id)).isNone)).map
          (fun f => f.fault_id)
      let db1 := successIds.foldl
        (fun d i => updateFaultSyncStatus d i SyncStatus.SYNCED none now) db
      let db2 := result.errors.foldl
        (fun d err => updateFaultSyncStatus d err.id SyncStatus.ERROR (some err.error) now) db1
      (db2, Except.ok ())
  | Except.error msg =>
      (pending.foldl
        (fun d f => updateFaultSyncStatus d f.fault_id SyncStatus.ERROR (some msg) now) db,
       Except.error msg)

/-- The local-store effect of `SyncService.retryEvent` (lines 437–443):
`getEvent(eventId)`; if absent, return; otherwise
`updateEventSyncStatus(eventId, 'PENDING')` — unconditionally, whatever the
record's current `sync_status`.  (The subsequent `syncQueue()` call is
modelled separately.) -/
def retryEventLocal (events : List CEvent) (eventId : String) (now : Int) : List CEvent :=
  match events.find? (fun e => e.event_id == eventId) with
  | none => events
  | some _ => updateEventSyncStatus events eventId SyncStatus.PENDING none now

/-- The local-store effect of `SyncService.retryFault` (lines 445–451). -/
def retryFaultLocal (faults : List CFault) (faultId : String) (now : Int) : List CFault :=
  match faults.find? (fun f => f.fault_id == faultId) with
  | none => faults
  | some _ => updateFaultSyncStatus faults faultId SyncStatus.PENDING none now

/-! ## Control-flow model of `initialSync` / `syncQueue` (`sync.service.ts`)

Each awaited operation is a fallible oracle (`Except String …`): `.error m`
models the underlying promise rejecting with message `m`.  The functions
below reproduce exactly which awaits sit inside and outside the
`try`/`catch`/`finally` blocks of the source.  Thrown errors that the source
catches become state updates; uncaught ones surface as `.error`. -/

/-- The observable `SyncState` signal values. -/
inductive SState
  | idle
  | syncing
  | success
  | error
deriving DecidableEq, Repr

/-- The engine's observable/reentrancy state: the `_syncState` and
`_syncMessage` signals, the `_isOnline` signal and the `syncInProgress`
flag. -/
structure EngineSt where
  syncInProgress : Bool
  isOnline : Bool
  syncState : SState
  syncMessage : String
deriving DecidableEq, Repr

/-- Outcomes of every operation awaited by `initialSync` / `syncQueue`. -/
structure SyncEnv where
  getAssets : Except String Unit
  getAllChecklists : Except String Unit
  saveAssets : Except String Unit
  saveChecklists : Except String Unit
  /-- `db.getReporter()`: `.ok true` = reporter set, `.ok false` = not set,
  `.error m` = the storage read rejected. -/
  getReporter : Except String Bool
  /-- `db.getPendingEvents()` outcome (the pending ids). -/
  getPendingEvents : Except String (List String)
  getPendingFaults : Except String (List String)
  /-- `api.batchUpsertEvents` outcome. -/
  batchEventsCall : Except String Unit
  batchFaultsCall : Except String Unit
  /-- the `updateEventSyncStatus` marking loops inside `syncEvents`. -/
  markEventStatuses : Except String Unit
  markFaultStatuses : Except String Unit
  clearLastFailedCache : Except String Unit
  setMeta : Except String Unit

/-- Control flow of `syncEvents` (lines 327–363): the marking loops run in
both the success path and the catch branch; the catch branch re-throws the
transport error after marking (unless the marking itself throws first). -/
def syncEventsCF (env : SyncEnv) : Except String Unit :=
  match env.batchEventsCall with
  | Except.ok _ => env.markEventStatuses
  | Except.error msg =>
      match env.markEventStatuses with
      | Except.ok _ => Except.error msg
      | Except.error m2 => Except.error m2

/-- Control flow of `syncFaults` (lines 365–401). -/
def syncFaultsCF (env : SyncEnv) : Except String Unit :=
  match env.batchFaultsCall with
  | Except.ok _ => env.markFaultStatuses
  | Except.error msg =>
      match env.markFaultStatuses with
      | Except.ok _ => Except.error msg
      | Except.error m2 => Except.error m2

/-- The `try` block of `syncQueue` (lines 284–318): pending events, then
pending faults, then per-asset refreshes (whose bodies catch internally and
never throw — `refreshFaultsForAsset` lines 403–411,
`refreshLastFailedCheckForAsset` lines 417–425), then `setMeta`. -/
def syncQueueBody (env : SyncEnv) : Except String Unit := do
  let pendingEvents ← env.getPendingEvents
  if pendingEvents.length > 0 then syncEventsCF env else pure ()
  let pendingFaults ← env.getPendingFaults
  if pendingFaults.length > 0 then syncFaultsCF env else pure ()
  env.setMeta

/-- `SyncService.syncQueue` (lines 260–325).  The reentrancy and online
guards and the `await this.db.getReporter()` read all run BEFORE the
`try` block; the `finally` clears `syncInProgress`. -/
def syncQueue (env : SyncEnv) (s : EngineSt) : Except String EngineSt :=
  if s.syncInProgress then Except.ok s
  else if !s.isOnline then Except.ok s
  else
    match env.getReporter with
    | Except.error m => Except.error m
    | Except.ok false =>
        Except.ok { s with syncMessage := "Please set your name to enable sync" }
    | Except.ok true =>
        let s1 := { s with syncInProgress := true, syncState := SState.syncing,
                           syncMessage := "Uploading pending checks..." }
        match syncQueueBody env with
        | Except.ok _ =>
            Except.ok { s1 with syncInProgress := false, syncState := SState.success,
                                syncMessage := "Sync completed" }
        | Except.error m =>
            Except.ok { s1 with syncInProgress := false, syncState := SState.error,
                                syncMessage := m }

/-- `fetchLastFailedChecksForAllAssets` (lines 232–255): the initial
`clearLastFailedChecksCache` can throw; each per-asset fetch/save is wrapped
in its own `try`/`catch` and never throws. -/
def fetchLastFailedChecksCF (env : SyncEnv) : Except String Unit :=
  env.clearLastFailedCache

/-- The `try` block of `initialSync` (lines 193–220). -/
def initialSyncBody (env : SyncEnv) (s : EngineSt) : Except String EngineSt := do
  let _ ← env.getAssets
  let _ ← env.getAllChecklists
  let _ ← env.saveAssets
  let _ ← env.saveChecklists
  let s2 ← syncQueue env s
  let _ ← fetchLastFailedChecksCF env
  let _ ← env.setMeta
  pure s2

/-- `SyncService.initialSync` (lines 184–226): offline guard, set the
syncing state, then everything else inside `try`/`catch`. -/
def initialSync (env : SyncEnv) (s : EngineSt) : Except String EngineSt :=
  if !s.isOnline then Except.ok s
  else
    let s1 := { s with syncState := SState.syncing, syncMessage := "Syncing data..." }
    match initialSyncBody env s1 with
    | Except.ok s2 =>
        Except.ok { s2 with syncState := SState.success, syncMessage := "Sync completed" }
    | Except.error m =>
        Except.ok { s1 with syncState := SState.error, syncMessage := m }

/-! ## Interleaving model of two concurrent `syncQueue` invocations

JavaScript is single-threaded: an async function runs synchronously from one
`await` suspension point to the next.  We model two invocations of
`syncQueue` (threads `false` and `true`) as programs whose atomic steps are
exactly the synchronous blocks of the source between `await`s, acting on the
shared engine/store state.  A schedule is the list of threads chosen to run
their next ready block. -/

/-- Program counter of one `syncQueue` invocation.  Each constructor is the
synchronous block that runs when the preceding awaited promise resolves:

* `entry` — reentrancy + online guards, then initiate `db.getReporter()`;
* `afterReporter` — reporter check, set `syncInProgress := true`, initiate
  `db.getPendingEvents()`;
* `afterPending` — receive the pending list (read from the store now),
  initiate `api.batchUpsertEvents` (the upload is sent here);
* `afterUpload` — server acknowledged every record: mark the captured
  pending records `SYNCED`; `finally` resets `syncInProgress`. -/
inductive QueuePC
  | entry
  | afterReporter
  | afterPending
  | afterUpload
  | done
deriving DecidableEq, Repr

/-- Shared state plus both threads' program counters and the pending lists
each captured from its `getPendingEvents` resolution.  `uploads` logs every
batch-upload send as (thread, event id) pairs in send order. -/
structure QueueWorld where
  flag : Bool
  online : Bool
  reporterSet : Bool
  events : List (String × SyncStatus)
  uploads : List (Bool × String)
  pcF : QueuePC
  pcT : QueuePC
  capturedF : List String
  capturedT : List String
deriving DecidableEq, Repr

/-- ids of the records `getPendingEvents` returns (status PENDING or ERROR). -/
def pendingIdsOf (events : List (String × SyncStatus)) : List String :=
  (events.filter (fun e =>
    e.2 == SyncStatus.PENDING || e.2 == SyncStatus.ERROR)).map Prod.fst

/-- Mark the listed ids `SYNCED` in the shared store. -/
def markIdsSynced (events : List (String × SyncStatus)) (ids : List String) :
    List (String × SyncStatus) :=
  events.map fun e => if ids.contains e.1 then (e.1, SyncStatus.SYNCED) else e

def pcOf (w : QueueWorld) (t : Bool) : QueuePC :=
  if t then w.pcT else w.pcF

def setPc (w : QueueWorld) (t : Bool) (pc : QueuePC) : QueueWorld :=
  if t then { w with pcT := pc } else { w with pcF := pc }

def capturedOf (w : QueueWorld) (t : Bool) : List String :=
  if t then w.capturedT else w.capturedF

def setCaptured (w : QueueWorld) (t : Bool) (ids : List String) : QueueWorld :=
  if t then { w with capturedT := ids } else { w with capturedF := ids }

/-- Run thread `t`'s next synchronous block (no-op once it is `done`). -/
def queueStep (w : QueueWorld) (t : Bool) : QueueWorld :=
  match pcOf w t with
  | QueuePC.entry =>
      if w.flag then setPc w t QueuePC.done
      else if !w.online then setPc w t QueuePC.done
      else setPc w t QueuePC.afterReporter
  | QueuePC.afterReporter =>
      if !w.reporterSet then setPc w t QueuePC.done
      else setPc { w with flag := true } t QueuePC.afterPending
  | QueuePC.afterPending =>
      let p := pendingIdsOf w.events
      setPc (setCaptured { w with uploads := w.uploads ++ p.map (fun i => (t, i)) } t p)
        t QueuePC.afterUpload
  | QueuePC.afterUpload =>
      setPc { w with events := markIdsSynced w.events (capturedOf w t), flag := false }
        t QueuePC.done
  | QueuePC.done => w

/-- Run a schedule: at each step the named thread executes its next block. -/
def runSched (w : QueueWorld) (sched : List Bool) : QueueWorld :=
  sched.foldl queueStep w

/-! ## Concrete instances used by the individual verification results -/

/-- An event payload that carries a `created_at` field of its own (as every
client-built event does). -/
def c1payload : EventRec :=
  ⟨"E1", "A1", 0, CheckResult.PASS, some 5, none⟩

/-- A local events table whose single record is already `SYNCED`. -/
def c2db : List CEvent :=
  [⟨"E1", "A1", 0, CheckResult.PASS, 0, 0, SyncStatus.SYNCED, none⟩]

/-- All awaited operations succeed except the reporter read, which rejects. -/
def envReporterFail : SyncEnv :=
  ⟨Except.ok (), Except.ok (), Except.ok (), Except.ok (),
   Except.error "storage failure",
   Except.ok [], Except.ok [], Except.ok (), Except.ok (),
   Except.ok (), Except.ok (), Except.ok (), Except.ok ()⟩

/-- Reporter is set but the pending-events read rejects. -/
def envBodyFail : SyncEnv :=
  ⟨Except.ok (), Except.ok (), Except.ok (), Except.ok (),
   Except.ok true,
   Except.error "db down", Except.ok [], Except.ok (), Except.ok (),
   Except.ok (), Except.ok (), Except.ok (), Except.ok ()⟩

/-- Quiescent engine state: not syncing, online. -/
def engineSt0 : EngineSt :=
  ⟨false, true, SState.idle, ""⟩

/-- Initial world for the reentrancy race: online, reporter set, one PENDING
event `E1`, both `syncQueue` invocations at their entry blocks. -/
def qw0 : QueueWorld :=
  ⟨false, true, true, [("E1", SyncStatus.PENDING)], [],
   QueuePC.entry, QueuePC.entry, [], []⟩

/-- The racing schedule: thread `true` is invoked (runs its entry block)
right after thread `false` suspended awaiting `getReporter`, i.e. while the
first invocation is still in flight; thereafter the threads alternate in
promise-resolution order. -/
def raceSched : List Bool :=
  [false, true, false, true, false, true, false, true]

/-- `FAIL` event at `completed_at = 1`. -/
def c6e1 : EventRec := ⟨"e1", "A", 1, CheckResult.FAIL, some 1, some 1⟩

/-- `PASS` event at `completed_at = 2`. -/
def c6pass2 : EventRec := ⟨"e2", "A", 2, CheckResult.PASS, some 2, some 2⟩

/-- `FAIL` event at `completed_at = 2`. -/
def c6e2 : EventRec := ⟨"e2", "A", 2, CheckResult.FAIL, some 2, some 2⟩

/-- Server store with history `[FAIL@1, PASS@2]` for asset `A`. -/
def c6dbFailPass : List (String × EventRec) :=
  [("e1", c6e1), ("e2", c6pass2)]

/-- Server store with history `[FAIL@1, FAIL@2]` for asset `A`. -/
def c6dbFailFail : List (String × EventRec) :=
  [("e1", c6e1), ("e2", c6e2)]

/-- Batch record `A` (first occurrence — create). -/
def c7A1 : EventRec := ⟨"A", "X", 0, CheckResult.PASS, none, none⟩

/-- Batch record `B` (create). -/
def c7B : EventRec := ⟨"B", "Y", 0, CheckResult.PASS, none, none⟩

/-- Batch record `A` again with a different `result` (update). -/
def c7A2 : EventRec := ⟨"A", "X", 0, CheckResult.FAIL, none, none⟩

/-- A locally cached asset the server no longer returns. -/
def c9x : AssetRec := ⟨"X", "x", "TRACTOR", "qx"⟩

/-- The single asset of the server's response. -/
def c9y : AssetRec := ⟨"Y", "y", "TRACTOR", "qy"⟩

/-! ## General lemmas about the embedding -/

/-- A left fold of per-item `map`s over a list is the `map` of the per-record
left fold.  This lets every status-marking loop be read pointwise. -/
theorem foldl_map_comm {α β : Type} (g : β → α → α) (items : List β) (db : List α) :
    items.foldl (fun d it => d.map (g it)) db
      = db.map (fun r => items.foldl (fun r it => g it r) r) := by
  induction items generalizing db with
  | nil => simp
  | cons it its ih =>
      rw [List.foldl_cons, ih (db.map (g it)), List.map_map]
      rfl

/-- Membership-pointwise `Forall₂` against a mapped list. -/
theorem forall2_map_self {α β : Type} (P : α → β → Prop) (f : α → β) (l : List α)
    (h : ∀ a ∈ l, P a (f a)) : List.Forall₂ P l (l.map f) := by
  induction l with
  | nil => simp
  | cons a l ih =>
      exact List.Forall₂.cons (h a (List.mem_cons_self a l))
        (ih fun a ha => h a (List.mem_cons_of_mem _ ha))

/-- Per-record form of a fold of key-guarded idempotent updates over a list
of keys. -/
theorem foldl_keyed_upd {α : Type} (key : α → String) (u : α → α)
    (hk : ∀ r, key (u r) = key r) (hi : ∀ r, u (u r) = u r)
    (ids : List String) (r : α) :
    ids.foldl (fun r i => if key r = i then u r else r) r
      = if ids.contains (key r) then u r else r := by
  induction ids generalizing r with
  | nil => simp
  | cons i is ih =>
      rw [List.foldl_cons]
      by_cases h : key r = i
      · rw [if_pos h, ih (u r), hk, hi]
        have hc : (i :: is).contains (key r) = true := by
          simp [List.contains_cons, h]
        rw [hc, if_pos rfl]
        by_cases h2 : is.contains (key r) <;> simp [h2]
      · rw [if_neg h, ih r]
        have hc : (i :: is).contains (key r) = is.contains (key r) := by
          simp [List.contains_cons, beq_iff_eq, h, Ne.symm h]
        rw [hc]

/-- A fold of key-guarded per-item updates preserves the key. -/
theorem foldl_itemupd_key {α β : Type} (key : α → String) (eid : β → String)
    (u : β → α → α) (hk : ∀ b r, key (u b r) = key r) (items : List β) (r : α) :
    key (items.foldl (fun r b => if key r = eid b then u b r else r) r) = key r := by
  induction items generalizing r with
  | nil => rfl
  | cons b bs ih =>
      rw [List.foldl_cons]
      by_cases h : key r = eid b
      · rw [if_pos h, ih (u b r), hk]
      · rw [if_neg h, ih r]

/-- A fold of key-guarded per-item updates is the identity when no item's id
matches the record's key. -/
theorem foldl_itemupd_nomatch {α β : Type} (key : α → String) (eid : β → String)
    (u : β → α → α) (items : List β) (r : α) (h : ∀ b ∈ items, eid b ≠ key r) :
    items.foldl (fun r b => if key r = eid b then u b r else r) r = r := by
  induction items with
  | nil => rfl
  | cons b bs ih =>
      rw [List.foldl_cons,
        if_neg (fun heq => h b (List.mem_cons_self b bs) heq.symm)]
      exact ih fun b hb => h b (List.mem_cons_of_mem _ hb)

/-- If every per-item update sets the status to `ERROR`, the status stays
`ERROR` once set. -/
theorem foldl_itemupd_status_pres {α β : Type} (key : α → String) (eid : β → String)
    (st : α → SyncStatus) (u : β → α → α)
    (hs : ∀ b r, st (u b r) = SyncStatus.ERROR) (items : List β) (r : α)
    (h : st r = SyncStatus.ERROR) :
    st (items.foldl (fun r b => if key r = eid b then u b r else r) r)
      = SyncStatus.ERROR := by
  induction items generalizing r with
  | nil => exact h
  | cons b bs ih =>
      rw [List.foldl_cons]
      by_cases hb : key r = eid b
      · rw [if_pos hb]; exact ih (u b r) (hs b r)
      · rw [if_neg hb]; exact ih r h

/-- If some item's id matches the record's key and every per-item update
sets the status to `ERROR`, the folded record's status is `ERROR`. -/
theorem foldl_itemupd_status {α β : Type} (key : α → String) (eid : β → String)
    (st : α → SyncStatus) (u : β → α → α)
    (hs : ∀ b r, st (u b r) = SyncStatus.ERROR)
    (items : List β) (r : α) (h : ∃ b ∈ items, eid b = key r) :
    st (items.foldl (fun r b => if key r = eid b then u b r else r) r)
      = SyncStatus.ERROR := by
  induction items generalizing r with
  | nil => exact absurd h (by simp)
  | cons b bs ih =>
      rw [List.foldl_cons]
      by_cases hb : key r = eid b
      · rw [if_pos hb]
        exact foldl_itemupd_status_pres key eid st u hs bs (u b r) (hs b r)
      · rw [if_neg hb]
        obtain ⟨b', hb', he⟩ := h
        rcases List.mem_cons.mp hb' with hhead | htail
        · exact absurd (hhead ▸ he).symm hb
        · exact ih r ⟨b', htail, he⟩

/-- `contains` over a mapped key list as an `any` over the records. -/
theorem contains_map_eq_any {α : Type} (f : α → String) (l : List α) (x : String) :
    (l.map f).contains x = l.any (fun a => f a == x) := by
  induction l with
  | nil => rfl
  | cons a l ih =>
      rw [List.map_cons, List.contains_cons, List.any_cons, ih]
      by_cases h : f a = x
      · rw [← h]
      · rw [beq_eq_false_iff_ne.mpr (Ne.symm h), beq_eq_false_iff_ne.mpr h]

/-- The uniform event-marking loop (`for id of ids: updateEventSyncStatus`)
as a pointwise map over the table. -/
theorem markEvents_eq_map (st : SyncStatus) (err : Option String) (now : Int)
    (ids : List String) (db : List CEvent) :
    ids.foldl (fun d i => updateEventSyncStatus d i st err now) db
      = db.map (fun r => if ids.contains r.event_id
          then { r with sync_status := st, last_error := err, updated_at := now }
          else r) := by
  calc ids.foldl (fun d i => updateEventSyncStatus d i st err now) db
      = db.map (fun r => ids.foldl (fun r i =>
          if r.event_id = i
          then { r with sync_status := st, last_error := err, updated_at := now }
          else r) r) :=
        foldl_map_comm
          (fun (i : String) (r : CEvent) =>
            if r.event_id = i
            then { r with sync_status := st, last_error := err, updated_at := now }
            else r) ids db
    _ = _ :=
        congrArg (fun f => List.map f db)
          (funext fun r => foldl_keyed_upd (fun r => r.event_id)
            (fun r => { r with sync_status := st, last_error := err, updated_at := now })
            (fun _ => rfl) (fun _ => rfl) ids r)

/-- The uniform fault-marking loop as a pointwise map. -/
theorem markFaults_eq_map (st : SyncStatus) (err : Option String) (now : Int)
    (ids : List String) (db : List CFault) :
    ids.foldl (fun d i => updateFaultSyncStatus d i st err now) db
      = db.map (fun r => if ids.contains r.fault_id
          then { r with sync_status := st, last_error := err, updated_at := now }
          else r) := by
  calc ids.foldl (fun d i => updateFaultSyncStatus d i st err now) db
      = db.map (fun r => ids.foldl (fun r i =>
          if r.fault_id = i
          then { r with sync_status := st, last_error := err, updated_at := now }
          else r) r) :=
        foldl_map_comm
          (fun (i : String) (r : CFault) =>
            if r.fault_id = i
            then { r with sync_status := st, last_error := err, updated_at := now }
            else r) ids db
    _ = _ :=
        congrArg (fun f => List.map f db)
          (funext fun r => foldl_keyed_upd (fun r => r.fault_id)
            (fun r => { r with sync_status := st, last_error := err, updated_at := now })
            (fun _ => rfl) (fun _ => rfl) ids r)

/-- The catch-branch loop of `syncEvents` (mark every batch record `ERROR`
with the transport message) as a pointwise map. -/
theorem markPendingEventsError_eq_map (msg : String) (now : Int)
    (pending db : List CEvent) :
    pending.foldl
      (fun d e => updateEventSyncStatus d e.event_id SyncStatus.ERROR (some msg) now) db
      = db.map (fun r => if pending.any (fun p => p.event_id == r.event_id)
          then { r with sync_status := SyncStatus.ERROR, last_error := some msg,
                        updated_at := now }
          else r) := by
  have h1 : pending.foldl
      (fun d e => updateEventSyncStatus d e.event_id SyncStatus.ERROR (some msg) now) db
      = (pending.map (fun e => e.event_id)).foldl
          (fun d i => updateEventSyncStatus d i SyncStatus.ERROR (some msg) now) db :=
    (List.foldl_map (fun (e : CEvent) => e.event_id)
      (fun d i => updateEventSyncStatus d i SyncStatus.ERROR (some msg) now) pending db).symm
  rw [h1, markEvents_eq_map]
  exact congrArg (fun f => List.map f db)
    (funext fun r => by rw [contains_map_eq_any (fun e => e.event_id) pending r.event_id])

/-- The catch-branch loop of `syncFaults` as a pointwise map. -/
theorem markPendingFaultsError_eq_map (msg : String) (now : Int)
    (pending db : List CFault) :
    pending.foldl
      (fun d f => updateFaultSyncStatus d f.fault_id SyncStatus.ERROR (some msg) now) db
      = db.map (fun r => if pending.any (fun p => p.fault_id == r.fault_id)
          then { r with sync_status := SyncStatus.ERROR, last_error := some msg,
                        updated_at := now }
          else r) := by
  have h1 : pending.foldl
      (fun d f => updateFaultSyncStatus d f.fault_id SyncStatus.ERROR (some msg) now) db
      = (pending.map (fun f => f.fault_id)).foldl
          (fun d i => updateFaultSyncStatus d i SyncStatus.ERROR (some msg) now) db :=
    (List.foldl_map (fun (f : CFault) => f.fault_id)
      (fun d i => updateFaultSyncStatus d i SyncStatus.ERROR (some msg) now) pending db).symm
  rw [h1, markFaults_eq_map]
  exact congrArg (fun f => List.map f db)
    (funext fun r => by rw [contains_map_eq_any (fun f => f.fault_id) pending r.fault_id])

/-- The per-error marking loop of `syncEvents` as a map of per-record folds. -/
theorem markEventErrors_eq_map (now : Int) (errs : List BatchError) (db : List CEvent) :
    errs.foldl
      (fun d err => updateEventSyncStatus d err.id SyncStatus.ERROR (some err.error) now) db
      = db.map (fun r => errs.foldl (fun r err =>
          if r.event_id = err.id
          then { r with sync_status := SyncStatus.ERROR, last_error := some err.error,
                        updated_at := now }
          else r) r) :=
  foldl_map_comm
    (fun (err : BatchError) (r : CEvent) =>
      if r.event_id = err.id
      then { r with sync_status := SyncStatus.ERROR, last_error := some err.error,
                    updated_at := now }
      else r) errs db

/-- The per-error marking loop of `syncFaults` as a map of per-record folds. -/
theorem markFaultErrors_eq_map (now : Int) (errs : List BatchError) (db : List CFault) :
    errs.foldl
      (fun d err => updateFaultSyncStatus d err.id SyncStatus.ERROR (some err.error) now) db
      = db.map (fun r => errs.foldl (fun r err =>
          if r.fault_id = err.id
          then { r with sync_status := SyncStatus.ERROR, last_error := some err.error,
                        updated_at := now }
          else r) r) :=
  foldl_map_comm
    (fun (err : BatchError) (r : CFault) =>
      if r.fault_id = err.id
      then { r with sync_status := SyncStatus.ERROR, last_error := some err.error,
                    updated_at := now }
      else r) errs db

/-- `mapGet` after `mapSet`. -/
theorem mapGet_mapSet {α : Type} (m : List (String × α)) (k' : String) (v : α) (k : String) :
    mapGet (mapSet m k' v) k = if k' = k then some v else mapGet m k := by
  induction m with
  | nil => rfl
  | cons hd tl ih =>
      obtain ⟨k₀, v₀⟩ := hd
      by_cases h : k₀ = k'
      · by_cases h2 : k' = k <;> simp [mapSet, mapGet, h, h2]
      · by_cases h2 : k' = k
        · subst h2
          simp [mapSet, mapGet, h, ih]
        · simp [mapSet, mapGet, h, h2, ih]

/-- The response component never influences how the store evolves through
the batch loop. -/
theorem eventsFold_db_indep (now : Int) (evs : List EventRec)
    (acc1 acc2 : BatchResponse × List (String × EventRec)) (h : acc1.2 = acc2.2) :
    (evs.foldl (eventBatchStep now) acc1).2 = (evs.foldl (eventBatchStep now) acc2).2 := by
  induction evs generalizing acc1 acc2 with
  | nil => exact h
  | cons e es ih =>
      rw [List.foldl_cons, List.foldl_cons]
      apply ih
      obtain ⟨r1, d1⟩ := acc1
      obtain ⟨r2, d2⟩ := acc2
      simp only at h
      subst h
      by_cases hb : e.event_id = ""
      · simp [eventBatchStep, hb]
      · cases hget : mapGet d1 e.event_id <;> simp [eventBatchStep, hb, hget]

/-- Entries already in the response's error list survive the rest of the
batch loop. -/
theorem eventsFold_errors_mono (now : Int) (evs : List EventRec)
    (acc : BatchResponse × List (String × EventRec)) (x : BatchError)
    (h : x ∈ acc.1.errors) :
    x ∈ (evs.foldl (eventBatchStep now) acc).1.errors := by
  induction evs generalizing acc with
  | nil => exact h
  | cons e es ih =>
      rw [List.foldl_cons]
      apply ih
      obtain ⟨resp, db⟩ := acc
      by_cases hb : e.event_id = ""
      · simp only [eventBatchStep, hb, if_pos]
        exact List.mem_append_left _ h
      · cases hget : mapGet db e.event_id <;> simp [eventBatchStep, hb, hget] <;> exact h

/-- Each batch iteration adds exactly one to `created`, `updated` or the
error list, and never touches `processed`. -/
theorem eventsFold_tally (now : Int) (evs : List EventRec) (resp : BatchResponse)
    (db : List (String × EventRec)) :
    (evs.foldl (eventBatchStep now) (resp, db)).1.created
        + (evs.foldl (eventBatchStep now) (resp, db)).1.updated
        + (evs.foldl (eventBatchStep now) (resp, db)).1.errors.length
      = resp.created + resp.updated + resp.errors.length + evs.length ∧
    (evs.foldl (eventBatchStep now) (resp, db)).1.processed = resp.processed := by
  induction evs generalizing resp db with
  | nil => simp
  | cons e es ih =>
      rw [List.foldl_cons]
      by_cases hb : e.event_id = ""
      · have hstep : eventBatchStep now (resp, db) e
            = ({ resp with errors := resp.errors ++ [⟨"unknown", "event_id is required"⟩] },
               db) := by
          simp [eventBatchStep, hb]
        rw [hstep]
        obtain ⟨ha, hp⟩ := ih _ db
        refine ⟨?_, hp⟩
        dsimp only at ha
        simp only [List.length_append, List.length_cons, List.length_nil] at ha
        simp only [List.length_cons]
        omega
      · cases hget : mapGet db e.event_id with
        | some v =>
            have hstep : eventBatchStep now (resp, db) e
                = ({ resp with updated := resp.updated + 1 },
                   mapSet db e.event_id { e with updated_at := some now }) := by
              simp [eventBatchStep, hb, hget]
            rw [hstep]
            obtain ⟨ha, hp⟩ := ih _ _
            refine ⟨?_, hp⟩
            dsimp only at ha
            simp only [List.length_cons]
            omega
        | none =>
            have hstep : eventBatchStep now (resp, db) e
                = ({ resp with created := resp.created + 1 },
                   mapSet db e.event_id
                     { e with created_at := some now, updated_at := some now }) := by
              simp [eventBatchStep, hb, hget]
            rw [hstep]
            obtain ⟨ha, hp⟩ := ih _ _
            refine ⟨?_, hp⟩
            dsimp only at ha
            simp only [List.length_cons]
            omega

/-- Fault analogue of `eventsFold_tally`. -/
theorem faultsFold_tally (now : Int) (fs : List FaultRec) (resp : BatchResponse)
    (db : List (String × FaultRec)) :
    (fs.foldl (faultBatchStep now) (resp, db)).1.created
        + (fs.foldl (faultBatchStep now) (resp, db)).1.updated
        + (fs.foldl (faultBatchStep now) (resp, db)).1.errors.length
      = resp.created + resp.updated + resp.errors.length + fs.length ∧
    (fs.foldl (faultBatchStep now) (resp, db)).1.processed = resp.processed := by
  induction fs generalizing resp db with
  | nil => simp
  | cons f fs ih =>
      rw [List.foldl_cons]
      by_cases hb : f.fault_id = ""
      · have hstep : faultBatchStep now (resp, db) f
            = ({ resp with errors := resp.errors ++ [⟨"unknown", "fault_id is required"⟩] },
               db) := by
          simp [faultBatchStep, hb]
        rw [hstep]
        obtain ⟨ha, hp⟩ := ih _ db
        refine ⟨?_, hp⟩
        dsimp only at ha
        simp only [List.length_append, List.length_cons, List.length_nil] at ha
        simp only [List.length_cons]
        omega
      · cases hget : mapGet db f.fault_id with
        | some v =>
            have hstep : faultBatchStep now (resp, db) f
                = ({ resp with updated := resp.updated + 1 },
                   mapSet db f.fault_id { f with updated_at := some now }) := by
              simp [faultBatchStep, hb, hget]
            rw [hstep]
            obtain ⟨ha, hp⟩ := ih _ _
            refine ⟨?_, hp⟩
            dsimp only at ha
            simp only [List.length_cons]
            omega
        | none =>
            have hstep : faultBatchStep now (resp, db) f
                = ({ resp with created := resp.created + 1 },
                   mapSet db f.fault_id
                     { f with created_at := some now, updated_at := some now }) := by
              simp [faultBatchStep, hb, hget]
            rw [hstep]
            obtain ⟨ha, hp⟩ := ih _ _
            refine ⟨?_, hp⟩
            dsimp only at ha
            simp only [List.length_cons]
            omega

/-- `find?` over an append tries the left list first. -/
theorem find?_append_split {α : Type} (p : α → Bool) (l1 l2 : List α) :
    (l1 ++ l2).find? p
      = match l1.find? p with
        | some x => some x
        | none => l2.find? p := by
  induction l1 with
  | nil => rfl
  | cons a l ih =>
      cases hpa : p a <;> simp [List.find?_cons, hpa, ih]

/-! ## The verified properties -/

/-- Claim C1: the spec says applying the server upsert repeatedly with an
identical payload keeps exactly one stored record whose `created_at` equals
the value assigned at the first application and is never altered by a later
upsert.  Evaluating the embedded route shows otherwise: the first
application stores `created_at = 10` (server time), but the second
application of the very same payload stores `created_at = 5` — the payload's
own field — because the update branch spreads the incoming payload and
overrides only `updated_at`.  The single-record and `updated_at` parts do
hold. -/
theorem claim_C1 :
    (upsertEvent [] c1payload 10).1 = UpsertAction.created ∧
    mapGet (upsertEvent [] c1payload 10).2 "E1"
      = some ⟨"E1", "A1", 0, CheckResult.PASS, some 10, some 10⟩ ∧
    (upsertEvent (upsertEvent [] c1payload 10).2 c1payload 20).1 = UpsertAction.updated ∧
    (upsertEvent (upsertEvent [] c1payload 10).2 c1payload 20).2.length = 1 ∧
    mapGet (upsertEvent (upsertEvent [] c1payload 10).2 c1payload 20).2 "E1"
      = some ⟨"E1", "A1", 0, CheckResult.PASS, some 5, some 20⟩ ∧
    Option.map EventRec.created_at
        (mapGet (upsertEvent (upsertEvent [] c1payload 10).2 c1payload 20).2 "E1")
      ≠ Option.map EventRec.created_at (mapGet (upsertEvent [] c1payload 10).2 "E1") := by
  decide

/-- Claim C2, counterexample: `retryEvent` on an existing record does not
check the current status, so a `SYNCED` event is reset to `PENDING`. -/
theorem claim_C2_cex :
    c2db.map CEvent.sync_status = [SyncStatus.SYNCED] ∧
    (retryEventLocal c2db "E1" 5).map CEvent.sync_status = [SyncStatus.PENDING] := by
  decide

/-- Claim C2, amended: `SYNCED` records are excluded from every queue drain
(the pending queries return only `PENDING`/`ERROR` records), but
`retryEvent`/`retryFault` do not guard on the current status: applied to an
existing record — even a `SYNCED` one — they set its `sync_status` to
`PENDING`; applied to a missing id they change nothing. -/
theorem claim_C2 :
    (∀ events : List CEvent, ∀ e ∈ getPendingEvents events,
      e.sync_status = SyncStatus.PENDING ∨ e.sync_status = SyncStatus.ERROR) ∧
    (∀ faults : List CFault, ∀ f ∈ getPendingFaults faults,
      f.sync_status = SyncStatus.PENDING ∨ f.sync_status = SyncStatus.ERROR) ∧
    (∀ (events : List CEvent) (eventId : String) (now : Int),
      List.Forall₂ (fun e e' =>
        e' = if e.event_id = eventId
             then { e with sync_status := SyncStatus.PENDING, last_error := none,
                           updated_at := now }
             else e)
        events (retryEventLocal events eventId now)) ∧
    (∀ (faults : List CFault) (faultId : String) (now : Int),
      List.Forall₂ (fun f f' =>
        f' = if f.fault_id = faultId
             then { f with sync_status := SyncStatus.PENDING, last_error := none,
                           updated_at := now }
             else f)
        faults (retryFaultLocal faults faultId now)) := by
  refine ⟨?_, ?_, ?_, ?_⟩
  · intro events e he
    simp [getPendingEvents, List.mem_filter] at he
    exact he.2
  · intro faults f hf
    simp [getPendingFaults, List.mem_filter] at hf
    exact hf.2
  · intro events eventId now
    cases h : events.find? (fun e => e.event_id == eventId) with
    | none =>
        have hres : retryEventLocal events eventId now = events := by
          simp [retryEventLocal, h]
        rw [hres]
        have hn := List.find?_eq_none.mp h
        refine List.forall₂_same.mpr fun e hme => ?_
        rw [if_neg fun hc => hn e hme (beq_iff_eq.mpr hc)]
    | some w =>
        have hres : retryEventLocal events eventId now
            = updateEventSyncStatus events eventId SyncStatus.PENDING none now := by
          simp [retryEventLocal, h]
        rw [hres]
        exact forall2_map_self _ _ _ fun a _ => rfl
  · intro faults faultId now
    cases h : faults.find? (fun f => f.fault_id == faultId) with
    | none =>
        have hres : retryFaultLocal faults faultId now = faults := by
          simp [retryFaultLocal, h]
        rw [hres]
        have hn := List.find?_eq_none.mp h
        refine List.forall₂_same.mpr fun f hmf => ?_
        rw [if_neg fun hc => hn f hmf (beq_iff_eq.mpr hc)]
    | some w =>
        have hres : retryFaultLocal faults faultId now
            = updateFaultSyncStatus faults faultId SyncStatus.PENDING none now := by
          simp [retryFaultLocal, h]
        rw [hres]
        exact forall2_map_self _ _ _ fun a _ => rfl

/-- Witness for the amended claim C2 at a concrete table: a PENDING record
returned by the pending query indeed has status PENDING or ERROR, and a
PENDING fault likewise. -/
theorem claim_C2_w :
    ((⟨"E1", "A1", 0, CheckResult.PASS, 0, 0, SyncStatus.PENDING, none⟩ : CEvent).sync_status
        = SyncStatus.PENDING ∨
     (⟨"E1", "A1", 0, CheckResult.PASS, 0, 0, SyncStatus.PENDING, none⟩ : CEvent).sync_status
        = SyncStatus.ERROR) ∧
    ((⟨"F1", "A1", FaultStatus.OPEN, 0, SyncStatus.ERROR, none⟩ : CFault).sync_status
        = SyncStatus.PENDING ∨
     (⟨"F1", "A1", FaultStatus.OPEN, 0, SyncStatus.ERROR, none⟩ : CFault).sync_status
        = SyncStatus.ERROR) :=
  ⟨claim_C2.1 [⟨"E1", "A1", 0, CheckResult.PASS, 0, 0, SyncStatus.PENDING, none⟩]
      ⟨"E1", "A1", 0, CheckResult.PASS, 0, 0, SyncStatus.PENDING, none⟩ (by decide),
   claim_C2.2.1 [⟨"F1", "A1", FaultStatus.OPEN, 0, SyncStatus.ERROR, none⟩]
      ⟨"F1", "A1", FaultStatus.OPEN, 0, SyncStatus.ERROR, none⟩ (by decide)⟩

/-- Claim C5: the spec says a second `syncQueue` invocation arriving while a
previous one is in flight performs no uploads, so no record is uploaded
twice.  In the interleaving model this fails: after thread `false` runs only
its entry block (so it is in flight, suspended awaiting the reporter read,
and has not yet set `syncInProgress`), thread `true` is invoked, passes the
same guard, and both threads send the batch upload — the shared upload log
ends as `[(false, "E1"), (true, "E1")]`: record `E1` is uploaded twice. -/
theorem claim_C5 :
    (runSched qw0 [false]).pcF = QueuePC.afterReporter ∧
    (runSched qw0 [false]).pcT = QueuePC.entry ∧
    (runSched qw0 [false]).flag = false ∧
    (runSched qw0 raceSched).uploads = [(false, "E1"), (true, "E1")] ∧
    (runSched qw0 raceSched).pcF = QueuePC.done ∧
    (runSched qw0 raceSched).pcT = QueuePC.done := by
  decide

/-- Claim C8: the computed check result is `PASS` iff every response is
`YES`; it is `FAIL` otherwise; the empty response list yields `PASS`; the
component's `willPass` agrees with the utility's `calculateCheckResult`. -/
theorem claim_C8 :
    (∀ responses : List Answer,
      (calculateCheckResult responses = CheckResult.PASS ↔
        ∀ r ∈ responses, r = Answer.YES)) ∧
    (∀ responses : List Answer, (¬ ∀ r ∈ responses, r = Answer.YES) →
      calculateCheckResult responses = CheckResult.FAIL) ∧
    calculateCheckResult [] = CheckResult.PASS ∧
    (∀ responses : List Answer,
      (willPass responses = true ↔ calculateCheckResult responses = CheckResult.PASS)) := by
  have hall : ∀ rs : List Answer,
      rs.all (fun r => r == Answer.YES) = true ↔ ∀ r ∈ rs, r = Answer.YES := by
    intro rs
    simp [List.all_eq_true]
  refine ⟨?_, ?_, rfl, ?_⟩
  · intro rs
    by_cases hb : rs.all (fun r => r == Answer.YES)
    · simp only [calculateCheckResult, if_pos hb]
      exact iff_of_true trivial ((hall rs).mp hb)
    · simp only [calculateCheckResult, if_neg hb]
      exact iff_of_false (fun hcon => CheckResult.noConfusion hcon)
        fun hy => hb ((hall rs).mpr hy)
  · intro rs hy
    by_cases hb : rs.all (fun r => r == Answer.YES)
    · exact absurd ((hall rs).mp hb) hy
    · simp only [calculateCheckResult, if_neg hb]
  · intro rs
    by_cases hb : rs.all (fun r => r == Answer.YES)
    · simp only [calculateCheckResult, if_pos hb]
      exact iff_of_true hb trivial
    · simp only [calculateCheckResult, if_neg hb]
      exact iff_of_false (fun hcon => hb hcon)
        fun hcon => CheckResult.noConfusion hcon

/-- Witness for claim C8 at a concrete input. -/
theorem claim_C8_w : calculateCheckResult [Answer.NO] = CheckResult.FAIL :=
  claim_C8.2.1 [Answer.NO] (by decide)

/-- Claim C9, counterexample: `saveAssets` only bulk-puts the server's
assets; a locally cached asset absent from the server response (`X` here)
stays in the local store, so the store is not replaced wholesale. -/
theorem claim_C9_cex :
    mapGet (saveAssets [("X", c9x)] [c9y]) "X" = some c9x ∧
    saveAssets [("X", c9x)] [c9y] = [("X", c9x), ("Y", c9y)] := by
  decide

/-- Claim C9, amended: each asset of the server response is upserted into
the local assets store under its `asset_id` (the last same-id response entry
wins and overwrites any local copy), while every key absent from the
response keeps its previous local value — stale local assets are NOT
removed. -/
theorem claim_C9 :
    ∀ (store : List (String × AssetRec)) (assets : List AssetRec) (k : String),
      mapGet (saveAssets store assets) k
        = match assets.reverse.find? (fun a => a.asset_id == k) with
          | some a => some a
          | none => mapGet store k := by
  intro store assets k
  induction assets generalizing store with
  | nil => rfl
  | cons a rest ih =>
      have hstep : saveAssets store (a :: rest)
          = saveAssets (mapSet store a.asset_id a) rest := rfl
      rw [hstep, ih]
      have hrev : (a :: rest).reverse = rest.reverse ++ [a] := by
        simp
      rw [hrev, find?_append_split]
      cases hfind : rest.reverse.find? (fun a => a.asset_id == k) with
      | some b => rfl
      | none =>
          cases hpa : a.asset_id == k with
          | true =>
              have : a.asset_id = k := beq_iff_eq.mp hpa
              simp [List.find?_cons, hpa, mapGet_mapSet, this]
          | false =>
              have : ¬ a.asset_id = k := fun hc => by
                rw [beq_iff_eq.mpr hc] at hpa
                exact Bool.noConfusion hpa
              simp [List.find?_cons, hpa, mapGet_mapSet, this]

/-- Claim C10: for every batch-upsert call (events or faults) the response
satisfies `processed = request length = created + updated + errors.length`:
each input record contributes exactly one tally. -/
theorem claim_C10 :
    (∀ (db : List (String × EventRec)) (events : List EventRec) (now : Int),
      (batchUpsertEvents db events now).1.processed = events.length ∧
      (batchUpsertEvents db events now).1.created
          + (batchUpsertEvents db events now).1.updated
          + (batchUpsertEvents db events now).1.errors.length
        = events.length) ∧
    (∀ (db : List (String × FaultRec)) (faults : List FaultRec) (now : Int),
      (batchUpsertFaults db faults now).1.processed = faults.length ∧
      (batchUpsertFaults db faults now).1.created
          + (batchUpsertFaults db faults now).1.updated
          + (batchUpsertFaults db faults now).1.errors.length
        = faults.length) := by
  constructor
  · intro db events now
    obtain ⟨ha, hp⟩ := eventsFold_tally now events ⟨events.length, 0, 0, []⟩ db
    exact ⟨hp, by simpa using ha⟩
  · intro db faults now
    obtain ⟨ha, hp⟩ := faultsFold_tally now faults ⟨faults.length, 0, 0, []⟩ db
    exact ⟨hp, by simpa using ha⟩

/-- Claim C3, counterexample: the `await this.db.getReporter()` read in
`syncQueue` happens BEFORE the `try` block, so a storage failure there is
not converted into the observable sync-state — it rejects to the caller. -/
theorem claim_C3_cex :
    syncQueue envReporterFail engineSt0 = Except.error "storage failure" := rfl

/-- Claim C3, amended: `initialSync` never rejects (every failure inside it,
including a rejecting `syncQueue`, is caught and becomes sync-state
`error` plus the message).  `syncQueue` never rejects provided the reporter
read itself resolves; every failure inside its `try` block is converted into
sync-state `error` plus the exception message.  A storage failure in the
reporter read, however, propagates to `syncQueue`'s caller
(see the counterexample). -/
theorem claim_C3 :
    (∀ (env : SyncEnv) (s : EngineSt), ∃ s2, initialSync env s = Except.ok s2) ∧
    (∀ (env : SyncEnv) (s : EngineSt) (b : Bool), env.getReporter = Except.ok b →
      ∃ s2, syncQueue env s = Except.ok s2) ∧
    (∀ (env : SyncEnv) (s : EngineSt) (m : String),
      s.syncInProgress = false → s.isOnline = true →
      env.getReporter = Except.ok true → syncQueueBody env = Except.error m →
      syncQueue env s = Except.ok { s with syncInProgress := false,
                                            syncState := SState.error,
                                            syncMessage := m }) := by
  refine ⟨?_, ?_, ?_⟩
  · intro env s
    by_cases h : s.isOnline
    · cases hb : initialSyncBody env
          { s with syncState := SState.syncing, syncMessage := "Syncing data..." } with
      | ok s2 =>
          rw [h] at hb
          exact ⟨{ s2 with syncState := SState.success, syncMessage := "Sync completed" },
            by simp [initialSync, h, hb]⟩
      | error m =>
          rw [h] at hb
          exact ⟨{ s with isOnline := true, syncState := SState.error, syncMessage := m },
            by simp [initialSync, h, hb]⟩
    · exact ⟨s, by simp [initialSync, h]⟩
  · intro env s b hr
    by_cases h1 : s.syncInProgress
    · exact ⟨s, by simp [syncQueue, h1]⟩
    · by_cases h2 : s.isOnline
      · cases b with
        | false =>
            exact ⟨{ s with isOnline := true,
                            syncMessage := "Please set your name to enable sync" },
              by simp [syncQueue, h1, h2, hr]⟩
        | true =>
            cases hb : syncQueueBody env with
            | ok u =>
                exact ⟨{ s with syncInProgress := false, isOnline := true,
                                syncState := SState.success,
                                syncMessage := "Sync completed" },
                  by simp [syncQueue, h1, h2, hr, hb]⟩
            | error m =>
                exact ⟨{ s with syncInProgress := false, isOnline := true,
                                syncState := SState.error, syncMessage := m },
                  by simp [syncQueue, h1, h2, hr, hb]⟩
      · exact ⟨s, by simp [syncQueue, h1, h2]⟩
  · intro env s m h1 h2 hr hb
    simp [syncQueue, h1, h2, hr, hb]

/-- Witness for the amended claim C3 at a concrete environment whose
pending-events read fails inside the `try` block. -/
theorem claim_C3_w :
    syncQueue envBodyFail engineSt0
      = Except.ok ⟨false, true, SState.error, "db down"⟩ :=
  claim_C3.2.2 envBodyFail engineSt0 "db down" rfl rfl rfl rfl

/-- The head of the sorted asset-event list carries the asset's maximal
`completed_at`. -/
theorem lastFailed_head_max (db : List (String × EventRec)) (assetId : String)
    (x : EventRec) (rest : List EventRec)
    (hs : ((eventsValues db).filter (fun e => e.asset_id == assetId)).insertionSort
        byCompletedDesc = x :: rest) :
    x.asset_id = assetId ∧ x ∈ eventsValues db ∧
    ∀ e' ∈ eventsValues db, e'.asset_id = assetId →
      e'.completed_at ≤ x.completed_at := by
  have hperm : List.Perm
      (((eventsValues db).filter (fun e => e.asset_id == assetId)).insertionSort
        byCompletedDesc)
      ((eventsValues db).filter (fun e => e.asset_id == assetId)) :=
    List.perm_insertionSort _ _
  have hsorted : List.Sorted byCompletedDesc
      (((eventsValues db).filter (fun e => e.asset_id == assetId)).insertionSort
        byCompletedDesc) :=
    List.sorted_insertionSort _ _
  rw [hs] at hperm hsorted
  have hxl : x ∈ (eventsValues db).filter (fun e => e.asset_id == assetId) :=
    hperm.subset (List.mem_cons_self x rest)
  have hxf := List.mem_filter.mp hxl
  refine ⟨beq_iff_eq.mp hxf.2, hxf.1, ?_⟩
  intro e2 he2 ha2
  have he2l : e2 ∈ (eventsValues db).filter (fun e => e.asset_id == assetId) :=
    List.mem_filter.mpr ⟨he2, beq_iff_eq.mpr ha2⟩
  rcases List.mem_cons.mp (hperm.symm.subset he2l) with h1 | h1
  · rw [h1]
  · exact (List.sorted_cons.mp hsorted).1 e2 h1

/-- Claim C6: the last-failed query returns the asset's maximal-`completed_at`
event exactly when that event FAILed, and `null` when the asset has no
events or its most recent event PASSed; concretely, history `[FAIL@1, PASS@2]`
yields `null` and `[FAIL@1, FAIL@2]` yields the FAIL at 2. -/
theorem claim_C6 :
    (∀ (db : List (String × EventRec)) (assetId : String),
      (eventsValues db).filter (fun e => e.asset_id == assetId) = [] →
      lastFailedForAsset db assetId = none) ∧
    (∀ (db : List (String × EventRec)) (assetId : String) (e : EventRec),
      lastFailedForAsset db assetId = some e →
      e.asset_id = assetId ∧ e.result = CheckResult.FAIL ∧ e ∈ eventsValues db ∧
      ∀ e2 ∈ eventsValues db, e2.asset_id = assetId →
        e2.completed_at ≤ e.completed_at) ∧
    (∀ (db : List (String × EventRec)) (assetId : String),
      lastFailedForAsset db assetId = none →
      (eventsValues db).filter (fun e => e.asset_id == assetId) = [] ∨
      ∃ p ∈ eventsValues db, p.asset_id = assetId ∧ p.result = CheckResult.PASS ∧
        ∀ e2 ∈ eventsValues db, e2.asset_id = assetId →
          e2.completed_at ≤ p.completed_at) ∧
    lastFailedForAsset c6dbFailPass "A" = none ∧
    lastFailedForAsset c6dbFailFail "A" = some c6e2 := by
  refine ⟨?_, ?_, ?_, by decide, by decide⟩
  · intro db assetId h
    simp [lastFailedForAsset, h]
  · intro db assetId e h
    cases hs : ((eventsValues db).filter (fun e => e.asset_id == assetId)).insertionSort
        byCompletedDesc with
    | nil =>
        have hval : lastFailedForAsset db assetId = none := by
          simp only [lastFailedForAsset]
          rw [hs]
        rw [hval] at h
        exact Option.noConfusion h
    | cons x rest =>
        have hval : lastFailedForAsset db assetId
            = if x.result = CheckResult.PASS then none else some x := by
          simp only [lastFailedForAsset]
          rw [hs]
        rw [hval] at h
        by_cases hres : x.result = CheckResult.PASS
        · rw [if_pos hres] at h
          exact Option.noConfusion h
        · rw [if_neg hres] at h
          have hxe : x = e := Option.some_inj.mp h
          obtain ⟨hA, hM, hmax⟩ := lastFailed_head_max db assetId x rest hs
          have hfail : x.result = CheckResult.FAIL := by
            cases hcr : x.result
            · exact absurd hcr hres
            · rfl
          exact hxe ▸ ⟨hA, hfail, hM, hmax⟩
  · intro db assetId h
    cases hs : ((eventsValues db).filter (fun e => e.asset_id == assetId)).insertionSort
        byCompletedDesc with
    | nil =>
        left
        have hperm : List.Perm ([] : List EventRec)
            ((eventsValues db).filter (fun e => e.asset_id == assetId)) :=
          hs ▸ List.perm_insertionSort byCompletedDesc
            ((eventsValues db).filter (fun e => e.asset_id == assetId))
        exact (List.Perm.nil_eq hperm).symm
    | cons x rest =>
        have hval : lastFailedForAsset db assetId
            = if x.result = CheckResult.PASS then none else some x := by
          simp only [lastFailedForAsset]
          rw [hs]
        rw [hval] at h
        by_cases hres : x.result = CheckResult.PASS
        · right
          obtain ⟨hA, hM, hmax⟩ := lastFailed_head_max db assetId x rest hs
          exact ⟨x, hM, hA, hres, hmax⟩
        · rw [if_neg hres] at h
          exact Option.noConfusion h

/-- Witness for claim C6 at concrete inputs: the empty store yields `null`,
and on `[FAIL@1, FAIL@2]` the returned event is a FAIL. -/
theorem claim_C6_w :
    lastFailedForAsset ([] : List (String × EventRec)) "A" = none ∧
    c6e2.asset_id = "A" ∧ c6e2.result = CheckResult.FAIL :=
  ⟨claim_C6.1 [] "A" rfl,
   (claim_C6.2.1 c6dbFailFail "A" c6e2 (by decide)).1,
   (claim_C6.2.1 c6dbFailFail "A" c6e2 (by decide)).2.1⟩

/-- Claim C7: the server batch-upsert handles each record independently: the
concrete batch `[A(create), B(create), A(update)]` leaves exactly 2 stored
records with `A` reflecting the update and tallies 2 created + 1 updated;
a record with a missing id only appends an error entry and leaves the store
untouched; and such a record neither aborts nor influences the processing of
the remaining records. -/
theorem claim_C7 :
    ((batchUpsertEvents [] [c7A1, c7B, c7A2] 7).1 = ⟨3, 2, 1, []⟩ ∧
     (batchUpsertEvents [] [c7A1, c7B, c7A2] 7).2.length = 2 ∧
     mapGet (batchUpsertEvents [] [c7A1, c7B, c7A2] 7).2 "A"
       = some ⟨"A", "X", 0, CheckResult.FAIL, none, some 7⟩ ∧
     mapGet (batchUpsertEvents [] [c7A1, c7B, c7A2] 7).2 "B"
       = some ⟨"B", "Y", 0, CheckResult.PASS, some 7, some 7⟩) ∧
    (∀ (resp : BatchResponse) (db : List (String × EventRec)) (e : EventRec)
        (now : Int), e.event_id = "" →
      eventBatchStep now (resp, db) e
        = ({ resp with errors := resp.errors ++ [⟨"unknown", "event_id is required"⟩] },
           db)) ∧
    (∀ (db : List (String × EventRec)) (now : Int) (evs1 evs2 : List EventRec)
        (e : EventRec), e.event_id = "" →
      (batchUpsertEvents db (evs1 ++ e :: evs2) now).2
        = (batchUpsertEvents db (evs1 ++ evs2) now).2 ∧
      (⟨"unknown", "event_id is required"⟩ : BatchError)
        ∈ (batchUpsertEvents db (evs1 ++ e :: evs2) now).1.errors) := by
  refine ⟨by decide, ?_, ?_⟩
  · intro resp db e now h
    simp [eventBatchStep, h]
  · intro db now evs1 evs2 e h
    constructor
    · show ((evs1 ++ e :: evs2).foldl (eventBatchStep now)
          (⟨(evs1 ++ e :: evs2).length, 0, 0, []⟩, db)).2 = _
      rw [List.foldl_append, List.foldl_cons]
      show (evs2.foldl (eventBatchStep now) _).2
        = ((evs1 ++ evs2).foldl (eventBatchStep now)
            (⟨(evs1 ++ evs2).length, 0, 0, []⟩, db)).2
      rw [List.foldl_append]
      apply eventsFold_db_indep
      rcases hacc : evs1.foldl (eventBatchStep now)
          (⟨(evs1 ++ e :: evs2).length, 0, 0, []⟩, db) with ⟨R1, D1⟩
      rcases hacc2 : evs1.foldl (eventBatchStep now)
          (⟨(evs1 ++ evs2).length, 0, 0, []⟩, db) with ⟨R2, D2⟩
      have hD : D1 = D2 := by
        have hind := eventsFold_db_indep now evs1
          (⟨(evs1 ++ e :: evs2).length, 0, 0, []⟩, db)
          (⟨(evs1 ++ evs2).length, 0, 0, []⟩, db) rfl
        rw [hacc, hacc2] at hind
        exact hind
      have hstep : (eventBatchStep now (R1, D1) e).2 = D1 := by
        simp [eventBatchStep, h]
      rw [hstep]
      exact hD
    · show (⟨"unknown", "event_id is required"⟩ : BatchError)
        ∈ ((evs1 ++ e :: evs2).foldl (eventBatchStep now)
            (⟨(evs1 ++ e :: evs2).length, 0, 0, []⟩, db)).1.errors
      rw [List.foldl_append, List.foldl_cons]
      apply eventsFold_errors_mono
      rcases hacc : evs1.foldl (eventBatchStep now)
          (⟨(evs1 ++ e :: evs2).length, 0, 0, []⟩, db) with ⟨R1, D1⟩
      have hstep : (eventBatchStep now (R1, D1) e).1
          = { R1 with errors := R1.errors ++ [⟨"unknown", "event_id is required"⟩] } := by
        simp [eventBatchStep, h]
      rw [hstep]
      exact List.mem_append_right _ (List.mem_singleton.mpr rfl)

/-- Witness for claim C7: a record with an empty id at a concrete batch
state only appends the error entry. -/
theorem claim_C7_w :
    eventBatchStep 3 (⟨1, 0, 0, []⟩, ([] : List (String × EventRec)))
        ⟨"", "Z", 0, CheckResult.PASS, none, none⟩
      = (⟨1, 0, 0, [⟨"unknown", "event_id is required"⟩]⟩, []) :=
  claim_C7.2.1 ⟨1, 0, 0, []⟩ [] ⟨"", "Z", 0, CheckResult.PASS, none, none⟩ 3 rfl

/-- Per-record effect of the ok-path of `syncEvents`/`syncFaults`: first the
success loop (mark `SYNCED` when the record's key is among the success ids),
then the per-error loop (mark `ERROR` when an error entry names the key).
The resulting key is unchanged and the resulting status is `ERROR` exactly
when some error entry matches, `SYNCED` when the record was in the uploaded
batch and no error matches, and untouched otherwise. -/
theorem syncMark_per_record {α : Type} (key : α → String) (st : α → SyncStatus)
    (updS : α → α) (updE : BatchError → α → α)
    (hkS : ∀ r, key (updS r) = key r) (hsS : ∀ r, st (updS r) = SyncStatus.SYNCED)
    (hkE : ∀ b r, key (updE b r) = key r) (hsE : ∀ b r, st (updE b r) = SyncStatus.ERROR)
    (pending : List α) (errs : List BatchError) (r : α) :
    key (errs.foldl (fun r err => if key r = err.id then updE err r else r)
        (if ((pending.filter
              (fun e => (errs.find? (fun err => err.id == key e)).isNone)).map
            (fun e => key e)).contains (key r)
         then updS r else r)) = key r ∧
    st (errs.foldl (fun r err => if key r = err.id then updE err r else r)
        (if ((pending.filter
              (fun e => (errs.find? (fun err => err.id == key e)).isNone)).map
            (fun e => key e)).contains (key r)
         then updS r else r))
      = (if errs.any (fun err => err.id == key r) then SyncStatus.ERROR
         else if pending.any (fun p => key p == key r) then SyncStatus.SYNCED
         else st r) := by
  set sids := (pending.filter
      (fun e => (errs.find? (fun err => err.id == key e)).isNone)).map
    (fun e => key e) with hsids
  set r0 := if sids.contains (key r) then updS r else r with hr0
  have hk0 : key r0 = key r := by
    rw [hr0]
    by_cases hc : sids.contains (key r) = true
    · rw [if_pos hc, hkS]
    · rw [if_neg hc]
  constructor
  · exact (foldl_itemupd_key key (fun b => b.id) updE hkE errs r0).trans hk0
  · by_cases hAny : errs.any (fun err => err.id == key r) = true
    · rw [if_pos hAny]
      obtain ⟨err, herr, heq⟩ := List.any_eq_true.mp hAny
      exact foldl_itemupd_status key (fun b => b.id) st updE hsE errs r0
        ⟨err, herr, by rw [hk0]; exact beq_iff_eq.mp heq⟩
    · rw [if_neg hAny]
      have hnom : errs.foldl (fun r err => if key r = err.id then updE err r else r) r0
          = r0 :=
        foldl_itemupd_nomatch key (fun b => b.id) updE errs r0
          (fun b hb hbe =>
            hAny (List.any_eq_true.mpr ⟨b, hb, beq_iff_eq.mpr (hbe.trans hk0)⟩))
      rw [hnom]
      by_cases hP : pending.any (fun p => key p == key r) = true
      · rw [if_pos hP]
        obtain ⟨p, hp, hpe⟩ := List.any_eq_true.mp hP
        have hpe2 : key p = key r := beq_iff_eq.mp hpe
        have hfind : (errs.find? (fun err => err.id == key p)).isNone = true := by
          apply Option.isNone_iff_eq_none.mpr
          apply List.find?_eq_none.mpr
          intro x hx hc
          exact hAny (List.any_eq_true.mpr ⟨x, hx, hpe2 ▸ hc⟩)
        have hmem : key r ∈ sids := by
          rw [hsids, ← hpe2]
          exact List.mem_map.mpr ⟨p, List.mem_filter.mpr ⟨hp, hfind⟩, rfl⟩
        have hcont : sids.contains (key r) = true := List.elem_eq_true_of_mem hmem
        rw [hr0, if_pos hcont]
        exact hsS r
      · rw [if_neg hP]
        have hcont : ¬ sids.contains (key r) = true := by
          intro hcc
          have hmem := List.mem_of_elem_eq_true hcc
          obtain ⟨p, hpf, hpk⟩ := List.mem_map.mp hmem
          have hp := (List.mem_filter.mp hpf).1
          exact hP (List.any_eq_true.mpr ⟨p, hp, beq_iff_eq.mpr hpk⟩)
        rw [hr0, if_neg hcont]

/-- Claim C4: during a queue drain, when the batch network call itself
throws, every record of that batch present in the local table is marked
`ERROR` with the exception message (and no other record changes); when the
server instead returns per-record errors, exactly the records named in the
error list end up `ERROR`, every other record of the batch ends up `SYNCED`,
and records outside the batch keep their status.  Both for events and for
faults. -/
theorem claim_C4 :
    (∀ (pending db : List CEvent) (now : Int) (msg : String),
      (syncEvents pending (Except.error msg) db now).2 = Except.error msg ∧
      List.Forall₂ (fun r r2 =>
        r2 = if pending.any (fun p => p.event_id == r.event_id)
             then { r with sync_status := SyncStatus.ERROR, last_error := some msg,
                           updated_at := now }
             else r)
        db (syncEvents pending (Except.error msg) db now).1) ∧
    (∀ (pending : List CEvent) (resp : BatchResponse) (db : List CEvent) (now : Int),
      (syncEvents pending (Except.ok resp) db now).2 = Except.ok () ∧
      List.Forall₂ (fun r r2 =>
        r2.event_id = r.event_id ∧
        r2.sync_status
          = (if resp.errors.any (fun err => err.id == r.event_id) then SyncStatus.ERROR
             else if pending.any (fun p => p.event_id == r.event_id) then SyncStatus.SYNCED
             else r.sync_status))
        db (syncEvents pending (Except.ok resp) db now).1) ∧
    (∀ (pending db : List CFault) (now : Int) (msg : String),
      (syncFaults pending (Except.error msg) db now).2 = Except.error msg ∧
      List.Forall₂ (fun r r2 =>
        r2 = if pending.any (fun p => p.fault_id == r.fault_id)
             then { r with sync_status := SyncStatus.ERROR, last_error := some msg,
                           updated_at := now }
             else r)
        db (syncFaults pending (Except.error msg) db now).1) ∧
    (∀ (pending : List CFault) (resp : BatchResponse) (db : List CFault) (now : Int),
      (syncFaults pending (Except.ok resp) db now).2 = Except.ok () ∧
      List.Forall₂ (fun r r2 =>
        r2.fault_id = r.fault_id ∧
        r2.sync_status
          = (if resp.errors.any (fun err => err.id == r.fault_id) then SyncStatus.ERROR
             else if pending.any (fun p => p.fault_id == r.fault_id) then SyncStatus.SYNCED
             else r.sync_status))
        db (syncFaults pending (Except.ok resp) db now).1) := by
  refine ⟨?_, ?_, ?_, ?_⟩
  · intro pending db now msg
    refine ⟨rfl, ?_⟩
    have hmap : (syncEvents pending (Except.error msg) db now).1
        = db.map (fun r => if pending.any (fun p => p.event_id == r.event_id)
            then { r with sync_status := SyncStatus.ERROR, last_error := some msg,
                          updated_at := now }
            else r) :=
      markPendingEventsError_eq_map msg now pending db
    rw [hmap]
    exact forall2_map_self _ _ _ fun a _ => rfl
  · intro pending resp db now
    refine ⟨rfl, ?_⟩
    have h1 : (syncEvents pending (Except.ok resp) db now).1
        = resp.errors.foldl
            (fun d err => updateEventSyncStatus d err.id SyncStatus.ERROR (some err.error) now)
            (((pending.filter
                (fun e => (resp.errors.find? (fun err => err.id == e.event_id)).isNone)).map
              (fun e => e.event_id)).foldl
              (fun d i => updateEventSyncStatus d i SyncStatus.SYNCED none now) db) := rfl
    rw [h1, markEvents_eq_map, markEventErrors_eq_map, List.map_map]
    refine forall2_map_self _ _ _ fun r hr => ?_
    exact syncMark_per_record (fun e : CEvent => e.event_id) (fun e => e.sync_status)
      (fun r => { r with sync_status := SyncStatus.SYNCED, last_error := none,
                         updated_at := now })
      (fun err r => { r with sync_status := SyncStatus.ERROR, last_error := some err.error,
                             updated_at := now })
      (fun _ => rfl) (fun _ => rfl) (fun _ _ => rfl) (fun _ _ => rfl) pending resp.errors r
  · intro pending db now msg
    refine ⟨rfl, ?_⟩
    have hmap : (syncFaults pending (Except.error msg) db now).1
        = db.map (fun r => if pending.any (fun p => p.fault_id == r.fault_id)
            then { r with sync_status := SyncStatus.ERROR, last_error := some msg,
                          updated_at := now }
            else r) :=
      markPendingFaultsError_eq_map msg now pending db
    rw [hmap]
    exact forall2_map_self _ _ _ fun a _ => rfl
  · intro pending resp db now
    refine ⟨rfl, ?_⟩
    have h1 : (syncFaults pending (Except.ok resp) db now).1
        = resp.errors.foldl
            (fun d err => updateFaultSyncStatus d err.id SyncStatus.ERROR (some err.error) now)
            (((pending.filter
                (fun f => (resp.errors.find? (fun err => err.id == f.fault_id)).isNone)).map
              (fun f => f.fault_id)).foldl
              (fun d i => updateFaultSyncStatus d i SyncStatus.SYNCED none now) db) := rfl
    rw [h1, markFaults_eq_map, markFaultErrors_eq_map, List.map_map]
    refine forall2_map_self _ _ _ fun r hr => ?_
    exact syncMark_per_record (fun f : CFault => f.fault_id) (fun f => f.sync_status)
      (fun r => { r with sync_status := SyncStatus.SYNCED, last_error := none,
                         updated_at := now })
      (fun err r => { r with sync_status := SyncStatus.ERROR, last_error := some err.error,
                             updated_at := now })
      (fun _ => rfl) (fun _ => rfl) (fun _ _ => rfl) (fun _ _ => rfl) pending resp.errors r

end PSC
